import Mathlib

/-!
Verification of the childcare-ui client core (src/app/page.tsx) against its
specification.  The embedding models the decoded backend JSON as a small
JS-value type `JVal` (with `undefined` distinct from `null`, and JS
truthiness / property-access semantics, where reading a property of `null`
or `undefined` throws), the chat `Message` record, the `send` round trip
(request building, optimistic user append, response normalisation, error
catch), and the three render projections (providers table, cost tables,
clarifying questions).
-/

/-- A decoded JavaScript value.  `undef` models `undefined` (absent
property reads), the rest mirror JSON values. -/
inductive JVal : Type where
  | undef : JVal
  | null : JVal
  | bool : Bool → JVal
  | num : Int → JVal
  | str : String → JVal
  | arr : List JVal → JVal
  | obj : List (String × JVal) → JVal

/-- JS truthiness: `undefined`, `null`, `false`, `0`, and `""` are falsy;
every array and object is truthy. -/
def truthy : JVal → Bool
  | JVal.undef => false
  | JVal.null => false
  | JVal.bool b => b
  | JVal.num n => n != 0
  | JVal.str s => s != ""
  | JVal.arr _ => true
  | JVal.obj _ => true

mutual

/-- JS abstract ToString as used by template literals: strings pass
through, `undefined`/`null` print literally, arrays join their elements
with commas (eliding `null`/`undefined` elements), plain objects print
as `[object Object]`. -/
def jsToString : JVal → String
  | JVal.undef => "undefined"
  | JVal.null => "null"
  | JVal.bool b => if b then "true" else "false"
  | JVal.num n => toString n
  | JVal.str s => s
  | JVal.arr xs => jsArrToString xs
  | JVal.obj _ => "[object Object]"
termination_by structural v => v

/-- Array.prototype.toString: elements joined by commas, with
`null`/`undefined` elements rendered as the empty string. -/
def jsArrToString : List JVal → String
  | [] => ""
  | [JVal.null] => ""
  | [JVal.undef] => ""
  | [v] => jsToString v
  | JVal.null :: w :: vs => "," ++ jsArrToString (w :: vs)
  | JVal.undef :: w :: vs => "," ++ jsArrToString (w :: vs)
  | v :: w :: vs => jsToString v ++ "," ++ jsArrToString (w :: vs)
termination_by structural l => l

end

/-- Non-throwing property access, the semantics of the optional chain
`v?.k`: `undefined` on `null`/`undefined` and on every non-object; on an
object, the named field or `undefined` when it is missing. -/
def jget : JVal → String → JVal
  | JVal.obj fs, k =>
      match fs.find? (fun kv => kv.1 == k) with
      | some kv => kv.2
      | none => JVal.undef
  | _, _ => JVal.undef

/-- Plain property access `v.k`, which throws a TypeError when the base is
`null` or `undefined` and otherwise agrees with `jget`. -/
def getProp : JVal → String → Except String JVal
  | JVal.undef, k => Except.error ("Cannot read properties of undefined (reading " ++ k ++ ")")
  | JVal.null, k => Except.error ("Cannot read properties of null (reading " ++ k ++ ")")
  | v, k => Except.ok (jget v k)

/-- Strict equality test `v === "COST"`. -/
def isCOST : JVal → Bool
  | JVal.str s => s == "COST"
  | _ => false

/-- Message roles, from the `Message` type in page.tsx. -/
inductive Role : Type where
  | user : Role
  | assistant : Role
  | system : Role
  deriving DecidableEq

/-- A chat message, from the `Message` type in page.tsx.  `content` keeps
the runtime JS value (the source types it as `string` but assigns it
loosely-typed payload fields).  `citations` is `some` exactly when the
field was set; `providers` is `some` exactly when an array was attached;
`data` is `some` exactly when a (non-nullish) payload was attached. -/
structure Message : Type where
  role : Role
  content : JVal
  citations : Option JVal
  providers : Option (List JVal)
  data : Option JVal

/-- The synthesized COST sentence from the answer branch of `send`:
the template literal built from the optional chains `data?.data?.county`
and `data?.data?.state`. -/
def costSentence (r : JVal) : String :=
  "Estimated childcare prices for " ++ jsToString (jget (jget r "data") "county")
    ++ ", " ++ jsToString (jget (jget r "data") "state")

/-- The text interpolated for `data.error ?? "Unknown error"`. -/
def errText : JVal → String
  | JVal.undef => "Unknown error"
  | JVal.null => "Unknown error"
  | v => jsToString v

/-- The response-handling block of `send` in page.tsx, from
`const data = await res.json()` to the end of the `else` chain: classify
the decoded reply and build the assistant message, or propagate a thrown
TypeError (a reply of `null` throws at the very first probe
`data.answer`). -/
def normalizeE (d : JVal) : Except String Message := do
  let ans ← getProp d "answer"
  let dd ← getProp d "data"
  if truthy ans || truthy dd then
    let it ← getProp d "intent"
    let cit ← getProp d "citations"
    let pv ← getProp d "providers"
    pure { role := Role.assistant
         , content :=
             if truthy ans then ans
             else if isCOST it then JVal.str (costSentence d) else JVal.str "Here you go:"
         , citations := some (if truthy cit then cit else JVal.arr [])
         , providers := match pv with | JVal.arr ps => some ps | _ => none
         , data := match dd with | JVal.null => none | JVal.undef => none | v => some v }
  else
    let raw ← getProp d "raw"
    if truthy raw then
      pure { role := Role.assistant, content := raw
           , citations := none, providers := none, data := none }
    else
      let er ← getProp d "error"
      pure { role := Role.assistant
           , content := JVal.str ("Sorry—something went wrong.\n\n" ++ errText er)
           , citations := none, providers := none, data := none }

/-- The assistant message produced by the `catch` block of `send`:
content prefixed "Network error:", never any citations, providers or
data. -/
def netMsg (e : String) : Message :=
  { role := Role.assistant, content := JVal.str ("Network error: " ++ e)
  , citations := none, providers := none, data := none }

/-- The overall handling of a decoded reply inside `send`: the normalised
message, with any exception thrown during normalisation absorbed by the
`catch` block into a Network-outcome message. -/
def handleReply (d : JVal) : Message :=
  match normalizeE d with
  | Except.ok m => m
  | Except.error e => netMsg e

/-- The Answer-outcome message as the specification describes it
(spec 4.2 rule 1): content is the reply's `answer` when truthy, else the
synthesized COST sentence when the reply's own intent is "COST", else
"Here you go:"; citations default to the empty sequence; providers are
attached exactly when the payload's `providers` field is an array; `data`
is carried verbatim. -/
def answerMessage (r : JVal) : Message :=
  { role := Role.assistant
  , content :=
      if truthy (jget r "answer") then jget r "answer"
      else if isCOST (jget r "intent") then JVal.str (costSentence r)
      else JVal.str "Here you go:"
  , citations := some (if truthy (jget r "citations") then jget r "citations" else JVal.arr [])
  , providers := match jget r "providers" with | JVal.arr ps => some ps | _ => none
  , data := match jget r "data" with | JVal.null => none | JVal.undef => none | v => some v }

/-- The Raw-outcome message as the specification describes it (spec 4.2
rule 2): content is exactly the raw value, no citations, providers or
data. -/
def rawMessage (v : JVal) : Message :=
  { role := Role.assistant, content := v, citations := none, providers := none, data := none }

/-- The Error-outcome message as the specification describes it (spec 4.2
rule 3): content embeds the backend's `error` field, or "Unknown error"
when it is absent. -/
def errorMessage (v : JVal) : Message :=
  { role := Role.assistant
  , content := JVal.str ("Sorry—something went wrong.\n\n" ++ errText v)
  , citations := none, providers := none, data := none }

/-- The Response Normalizer as the specification describes it: a strict
priority order Answer > Raw > Error over the decoded reply. -/
def specNormalize (r : JVal) : Message :=
  if truthy (jget r "answer") || truthy (jget r "data") then answerMessage r
  else if truthy (jget r "raw") then rawMessage (jget r "raw")
  else errorMessage (jget r "error")

theorem getProp_eq (r : JVal) (h1 : r ≠ JVal.null) (h2 : r ≠ JVal.undef) (k : String) :
    getProp r k = Except.ok (jget r k) := by
  cases r <;> simp_all [getProp]

theorem normalizeE_ok (r : JVal) (h1 : r ≠ JVal.null) (h2 : r ≠ JVal.undef) :
    normalizeE r = Except.ok (specNormalize r) := by
  have hg : ∀ k, getProp r k = Except.ok (jget r k) := getProp_eq r h1 h2
  cases hC : (truthy (jget r "answer") || truthy (jget r "data")) <;>
    cases hR : truthy (jget r "raw") <;>
      simp [normalizeE, specNormalize, answerMessage, rawMessage, errorMessage, hg, hC, hR,
        bind, Except.bind, pure, Except.pure]

/-- The UI state read by `send` in page.tsx: the free-text input, the
region selector (serialized under the key "state"), the intent selector,
the six cost-form fields, and the message log. -/
structure UIState : Type where
  input : String
  stateSel : String
  intent : String
  county : String
  countyFips : String
  age : String
  setting : String
  metric : String
  units : String
  messages : List Message

/-- Strip whitespace from both ends of a character list. -/
def trimChars (l : List Char) : List Char :=
  ((l.dropWhile Char.isWhitespace).reverse.dropWhile Char.isWhitespace).reverse

/-- JS `String.prototype.trim`: strip whitespace from both ends, modelled
structurally over the character list. -/
def jsTrim (s : String) : String :=
  String.mk (trimChars s.data)

/-- The effective query of `send`: the trimmed input, or the synthesized
default "Cost estimate" when the trimmed input is empty and the intent is
COST, else empty (refused). -/
def effectiveQuery (input intentSel : String) : String :=
  if jsTrim input ≠ "" then jsTrim input
  else if intentSel = "COST" then "Cost estimate" else ""

/-- The optimistically appended user message. -/
def userMessage (q : String) : Message :=
  { role := Role.user, content := JVal.str q
  , citations := none, providers := none, data := none }

/-- The base payload fields of the outbound /chat body:
`{ query: q, state, intent }`. -/
def chatBase (q : String) (s : UIState) : List (String × String) :=
  [("query", q), ("state", s.stateSel), ("intent", s.intent)]

/-- The outbound /chat payload built by `send`: base fields plus, when the
intent is COST, each cost-form field attached only when truthy
(non-empty). -/
def buildPayload (q : String) (s : UIState) : List (String × String) :=
  chatBase q s ++
    (if s.intent = "COST" then
      (if s.county ≠ "" then [("county", s.county)] else [])
      ++ (if s.countyFips ≠ "" then [("countyFips", s.countyFips)] else [])
      ++ (if s.age ≠ "" then [("age", s.age)] else [])
      ++ (if s.setting ≠ "" then [("setting", s.setting)] else [])
      ++ (if s.metric ≠ "" then [("metric", s.metric)] else [])
      ++ (if s.units ≠ "" then [("units", s.units)] else [])
    else [])

/-- The pre-network phase of `send`: refuse when the effective query is
empty; otherwise build the payload and append the user message before the
network call resolves. -/
def sendPhase1 (s : UIState) : Option (List (String × String) × List Message) :=
  let q := effectiveQuery s.input s.intent
  if q = "" then none
  else some (buildPayload q s, s.messages ++ [userMessage q])

/-- Result of the network round trip: a decoded JSON reply, or a thrown
transport failure (fetch rejection or JSON decode error). -/
inductive NetResult : Type where
  | ok : JVal → NetResult
  | fail : String → NetResult

/-- The single assistant message produced after resolution: the
normalised reply on success (with a thrown normalisation error absorbed
by the catch into a Network message), or the Network message on
transport failure. -/
def assistantReply : NetResult → Message
  | NetResult.ok r => handleReply r
  | NetResult.fail e => netMsg e

/-- The post-resolution phase of `send`: exactly one assistant message is
appended. -/
def sendPhase2 (msgs : List Message) (net : NetResult) : List Message :=
  msgs ++ [assistantReply net]

/-- One whole `send` round trip over the message log. -/
def sendStep (s : UIState) (net : NetResult) : List Message :=
  match sendPhase1 s with
  | none => s.messages
  | some pm => sendPhase2 pm.2 net

/-- The six structured COST fields with their payload keys, in source
order. -/
def rawCostFields (s : UIState) : List (String × String) :=
  [("county", s.county), ("countyFips", s.countyFips), ("age", s.age),
   ("setting", s.setting), ("metric", s.metric), ("units", s.units)]

/-- The sparse-payload policy as the specification states it: keep
exactly the structured fields whose value is non-empty. -/
def sparseCostFields (s : UIState) : List (String × String) :=
  (rawCostFields s).filter (fun kv => kv.2 != "")

/-- A licensed provider record, from the `Provider` type in page.tsx. -/
structure Provider : Type where
  name : String
  address : Option String
  city : Option String
  zip : Option String
  license_type : Option String
  license_status : Option String
  qris_rating : Option String
  source_url : Option String
  last_seen : Option String
  deriving DecidableEq

/-- The truthy members of `[p.address, p.city, p.zip]`, i.e. the present,
non-empty address parts in order. -/
def addrFields (p : Provider) : List String :=
  [p.address, p.city, p.zip].filterMap (fun o =>
    match o with
    | some s => if s = "" then none else some s
    | none => none)

/-- `formatAddr` from page.tsx:
`[p.address, p.city, p.zip].filter(Boolean).join(", ")`. -/
def formatAddr (p : Provider) : String :=
  String.intercalate ", " (addrFields p)

/-- `formatDate` from page.tsx, with the JS date parser and the locale
formatter abstracted as parameters: an em-dash for a nullish or falsy
value, an em-dash when parsing yields an invalid date, otherwise the
locale date string. -/
def formatDate (parse : String → Option Nat) (fmt : Nat → String) : Option String → String
  | none => "—"
  | some iso =>
      match parse iso with
      | none => "—"
      | some t => fmt t

/-- One rendered row of the providers table (typed level). -/
structure ProviderRow : Type where
  name : String
  displayAddress : String
  displayType : String
  displayQris : String
  displayStatus : String
  displayDate : String
  displaySource : Option String

/-- The row the providers table renders for one provider. -/
def providerRow (parse : String → Option Nat) (fmt : Nat → String) (p : Provider) : ProviderRow :=
  { name := p.name
  , displayAddress := if formatAddr p = "" then "—" else formatAddr p
  , displayType := p.license_type.getD "—"
  , displayQris := p.qris_rating.getD "—"
  , displayStatus := p.license_status.getD "—"
  , displayDate := formatDate parse fmt p.last_seen
  , displaySource :=
      match p.source_url with
      | some u => if u = "" then none else some u
      | none => none }

/-- `ProvidersTable` from page.tsx: renders nothing for an empty input,
otherwise one row per provider in input order. -/
def providersTable (parse : String → Option Nat) (fmt : Nat → String)
    (ps : List Provider) : Option (List ProviderRow) :=
  if ps.isEmpty then none else some (ps.map (providerRow parse fmt))

/-- The string-keyed members a plain `{}` object inherits from
`Object.prototype` (methods plus the `__proto__` accessor).  Reading one
of these keys on an empty plain object yields a truthy inherited value,
not `undefined`. -/
def protoKeys : List String :=
  ["constructor", "hasOwnProperty", "isPrototypeOf", "propertyIsEnumerable",
   "toLocaleString", "toString", "valueOf", "__proto__",
   "__defineGetter__", "__defineSetter__", "__lookupGetter__", "__lookupSetter__"]

/-- The numeric value of a digit string. -/
def natOfDigits (l : List Char) : Nat :=
  l.foldl (fun n c => n * 10 + (c.toNat - 48)) 0

/-- Whether a key is an ECMA array index: the canonical decimal string
(digits only, no leading zero except "0") of an integer below 2^32 - 1.
Plain objects enumerate such keys first, in ascending numeric order. -/
def isArrayIndex (k : String) : Bool :=
  match k.data with
  | [] => false
  | c :: rest =>
      (c :: rest).all Char.isDigit && (c != '0' || rest.isEmpty)
        && natOfDigits (c :: rest) < 4294967295

/-- The numeric value of an array-index key. -/
def keyNum (k : String) : Nat :=
  natOfDigits k.data

/-- The age-group priority used by `CostResults`: the lookup
`order[g] || 9` on the literal `{infant: 1, toddler: 2, preschool: 3}`.
The own properties give 1/2/3; a key of `Object.prototype` yields a
truthy inherited member which `|| 9` keeps, so the comparator subtraction
produces NaN (`none` here); any other key yields `undefined`, so 9. -/
def ageRank (g : String) : Option Nat :=
  if g = "infant" then some 1
  else if g = "toddler" then some 2
  else if g = "preschool" then some 3
  else if g ∈ protoKeys then none
  else some 9

/-- The comparator key of the `CostResults` sort, at the JS level: the
property lookup `order[a.age_group]` stringifies the key. -/
def rankJ (a : JVal) : Option Nat :=
  ageRank (jsToString (jget a "age_group"))

/-- The insertion test of a stable sort under the comparator
`(order[a.age_group] || 9) - (order[b.age_group] || 9)`: true when the
comparator does not place `a` strictly after `b`.  A NaN comparator
result (either rank `none`) is treated as 0, a tie. -/
def rankLe : Option Nat → Option Nat → Bool
  | some x, some y => x ≤ y
  | _, _ => true

/-- Insertion of a new own property / push onto an existing one, for
`groups[key] = groups[key] || []; groups[key].push(a)` on a key the
object does not inherit: own properties are created in insertion
order. -/
def insertGroup (gs : List (String × List JVal)) (k : String) (a : JVal) :
    List (String × List JVal) :=
  match gs with
  | [] => [(k, [a])]
  | g :: rest => if g.1 = k then (g.1, g.2 ++ [a]) :: rest else g :: insertGroup rest k a

/-- The grouping loop of `CostResults`: for each answer, read `a.setting`
(a plain property access, so it can throw) and run
`groups[key] = groups[key] || []; groups[key].push(a)`.  When the key is
inherited from `Object.prototype`, `groups[key]` is a truthy function (or,
for `__proto__`, the prototype object, with the assignment creating no
own property), so `.push` is not a function and the loop throws. -/
def costGroupsE (answers : List JVal) : Except String (List (String × List JVal)) :=
  answers.foldlM (fun gs a => do
    let st ← getProp a "setting"
    if jsToString st ∈ protoKeys then
      Except.error "groups[key].push is not a function"
    else
      pure (insertGroup gs (jsToString st) a)) []

/-- The own-property enumeration order of a plain object, as used by
`Object.entries`: array-index keys first in ascending numeric order,
then the remaining string keys in insertion order. -/
def insertIdx (g : String × List JVal) :
    List (String × List JVal) → List (String × List JVal)
  | [] => [g]
  | h :: t => if keyNum g.1 ≤ keyNum h.1 then g :: h :: t else h :: insertIdx g t

/-- Ascending numeric sort of the array-index entries. -/
def sortIdx (l : List (String × List JVal)) : List (String × List JVal) :=
  l.foldr insertIdx []

/-- `Object.entries(groups)` over the insertion-ordered own properties:
array-index keys ascending first, then the rest in insertion order. -/
def entriesOrder (gs : List (String × List JVal)) : List (String × List JVal) :=
  sortIdx (gs.filter (fun g => isArrayIndex g.1))
    ++ gs.filter (fun g => !isArrayIndex g.1)

/-- Stable insertion into a rank-sorted list: an element goes in front of
the first element the comparator does not place before it, so earlier
elements keep priority among equal ranks. -/
def insertRow (a : JVal) : List JVal → List JVal
  | [] => [a]
  | b :: bs => if rankLe (rankJ a) (rankJ b) then a :: b :: bs else b :: insertRow a bs

/-- A deterministic refinement of the JS
`answers.sort((a, b) => (order[a.age_group] || 9) - (order[b.age_group] || 9))`:
a stable sort under `rankLe`.  When every rank is `some` this is the
extensional behaviour of the (since ES2019, stable) sort; when a rank is
`none` the comparator is inconsistent and ECMA leaves the order
implementation-defined, so no theorem below claims anything there. -/
def sortAge (l : List JVal) : List JVal :=
  l.foldr insertRow []

/-- The sort of one group: the comparator reads `a.age_group` on the
elements (a plain access that can throw); on success the result is the
stable rank-sorted order. -/
def sortRowsE (l : List JVal) : Except String (List JVal) := do
  let _ ← l.mapM (fun a => getProp a "age_group")
  pure (sortAge l)

/-- Rendering of one value in a cost cell: `v ?? "—"`, displayed. -/
def dashIfNullish : JVal → String
  | JVal.null => "—"
  | JVal.undef => "—"
  | v => jsToString v

/-- One rendered row of a cost sub-table. -/
structure CostRow : Type where
  ageGroup : String
  weeklyMedian : String
  weeklyP75 : String
  monthlyMedian : String
  monthlyP75 : String

/-- The row markup of `CostResults`: `{a.age_group}`,
`{a.weekly.median ?? "—"}`, `{a.weekly.p75 ?? "—"}`,
`{a.monthly.median ?? "—"}`, `{a.monthly.p75 ?? "—"}` — the nested reads
`a.weekly.median` and `a.monthly.median` are plain accesses with no
optional chaining, so they throw when `weekly`/`monthly` is missing. -/
def renderRowE (a : JVal) : Except String CostRow := do
  let ag ← getProp a "age_group"
  let w ← getProp a "weekly"
  let wm ← getProp w "median"
  let wp ← getProp w "p75"
  let mo ← getProp a "monthly"
  let mm ← getProp mo "median"
  let mp ← getProp mo "p75"
  pure { ageGroup := jsToString ag
       , weeklyMedian := dashIfNullish wm
       , weeklyP75 := dashIfNullish wp
       , monthlyMedian := dashIfNullish mm
       , monthlyP75 := dashIfNullish mp }

/-- The grouped-and-sorted tables before row rendering: run the grouping
loop, enumerate the groups in `Object.entries` order, then sort each
group by age rank. -/
def costTablesE (answers : List JVal) : Except String (List (String × List JVal)) := do
  let gs ← costGroupsE answers
  (entriesOrder gs).mapM (fun g => do
    let s ← sortRowsE g.2
    pure (g.1, s))

/-- One rendered cost sub-table. -/
structure CostTable : Type where
  setting : String
  rows : List CostRow

/-- The rendered view of `CostResults`. -/
structure CostView : Type where
  county : String
  countyFips : String
  stateLabel : String
  tables : List CostTable
  notes : Option (List String)
  sources : Option (List String)

/-- `CostResults` from page.tsx: run the grouping loop over
`data.answers`, render the county/state header, then each group as a
sub-table with rank-sorted rows, then the optional notes and citations
lists. -/
def costResultsE (d : JVal) : Except String CostView := do
  let ans ← getProp d "answers"
  let l ← (match ans with
    | JVal.arr l => Except.ok l
    | _ => Except.error "data.answers is not iterable")
  let gs ← costGroupsE l
  let c ← getProp d "county"
  let cf ← getProp d "county_fips"
  let st ← getProp d "state"
  let tables ← (entriesOrder gs).mapM (fun g => do
    let sorted ← sortRowsE g.2
    let rs ← sorted.mapM renderRowE
    pure (CostTable.mk g.1 rs))
  pure { county := jsToString c
       , countyFips := jsToString cf
       , stateLabel := jsToString st
       , tables := tables
       , notes :=
           match jget d "notes" with
           | JVal.arr ns => if ns.isEmpty then none else some (ns.map jsToString)
           | _ => none
       , sources :=
           match jget d "citations" with
           | JVal.arr cs => if cs.isEmpty then none else some (cs.map jsToString)
           | _ => none }

/-- A pair of optional dollar figures, from the `CostAnswer` type. -/
structure NumPair : Type where
  median : Option Int
  p75 : Option Int

/-- One typed cost answer, from the `CostAnswer` type in page.tsx. -/
structure CostAnswer : Type where
  age_group : String
  setting : String
  weekly : NumPair
  monthly : NumPair

/-- Encoding of an optional figure into the JSON the backend sends. -/
def encodeNum : Option Int → JVal
  | some n => JVal.num n
  | none => JVal.null

/-- Encoding of a weekly/monthly pair into JSON. -/
def encodePair (p : NumPair) : JVal :=
  JVal.obj [("median", encodeNum p.median), ("p75", encodeNum p.p75)]

/-- Encoding of a typed cost answer into the JSON the backend sends. -/
def encodeAnswer (a : CostAnswer) : JVal :=
  JVal.obj [("age_group", JVal.str a.age_group), ("setting", JVal.str a.setting),
    ("weekly", encodePair a.weekly), ("monthly", encodePair a.monthly)]

/-- The distinct settings of the answers, in first-occurrence order, as
the specification states the sub-table order. -/
def settingsFirstOccur (answers : List CostAnswer) : List String :=
  answers.foldl (fun acc a => if a.setting ∈ acc then acc else acc ++ [a.setting]) []

/-- The age rank of a typed answer. -/
def rankOf (a : CostAnswer) : Option Nat := ageRank a.age_group

/-- The rows of one sub-table as the specification states them: the
answers with that setting, in the fixed age-group priority
infant < toddler < preschool < other, ties kept in original order
(equivalently: the rank-1 block, then rank-2, rank-3 and rank-9 blocks,
each in input order). -/
def rowsForSetting (st : String) (answers : List CostAnswer) : List CostAnswer :=
  (answers.filter (fun a => rankOf a == some 1 && a.setting == st))
    ++ (answers.filter (fun a => rankOf a == some 2 && a.setting == st))
    ++ (answers.filter (fun a => rankOf a == some 3 && a.setting == st))
    ++ (answers.filter (fun a => rankOf a == some 9 && a.setting == st))

/-- The grouped, sorted cost tables as the claim states them: sub-tables
in first-occurrence order of the settings. -/
def specTables (answers : List CostAnswer) : List (String × List JVal) :=
  (settingsFirstOccur answers).map
    (fun st => (st, (rowsForSetting st answers).map encodeAnswer))

/-- Stable ascending insertion of an array-index key. -/
def insertIdxKey (k : String) : List String → List String
  | [] => [k]
  | h :: t => if keyNum k ≤ keyNum h then k :: h :: t else h :: insertIdxKey k t

/-- Ascending numeric sort of array-index keys. -/
def sortIdxKeys (ks : List String) : List String :=
  ks.foldr insertIdxKey []

/-- The JS plain-object enumeration order of a key list: array-index
keys first in ascending numeric order, then the rest in the given
(insertion) order. -/
def jsKeyOrder (ks : List String) : List String :=
  sortIdxKeys (ks.filter isArrayIndex) ++ ks.filter (fun k => !isArrayIndex k)

/-- The grouped, sorted cost tables as the program produces them for
well-behaved keys: sub-tables keyed by setting in JS enumeration order
(array-index settings ascending first, then first-occurrence order). -/
def specTablesJS (answers : List CostAnswer) : List (String × List JVal) :=
  (jsKeyOrder (settingsFirstOccur answers)).map
    (fun st => (st, (rowsForSetting st answers).map encodeAnswer))

/-- One rendered citation entry: `{c.title ? `${c.title} – ` : ""}` and
the optional link on `c.url` — both plain accesses that throw on a
nullish element. -/
def citationRowE (c : JVal) : Except String (String × String) := do
  let t ← getProp c "title"
  let u ← getProp c "url"
  pure (if truthy t then jsToString t ++ " – " else "",
        if truthy u then jsToString u else "")

/-- The citations block of the page render:
`m.citations && m.citations.length > 0 && m.citations.map(...)`.
A truthy non-array with a positive `length` (a non-empty string) reaches
`.map`, which is then not a function and throws. -/
def citationsViewE (c : JVal) : Except String (Option (List (String × String))) :=
  match c with
  | JVal.arr cs =>
      if cs.isEmpty then pure none
      else (fun l => some l) <$> cs.mapM citationRowE
  | JVal.str s =>
      if s = "" then pure none
      else Except.error "m.citations.map is not a function"
  | _ => pure none

/-- `[p.address, p.city, p.zip].filter(Boolean).join(", ")` over raw JS
values. -/
def formatAddrJ (ad ci zp : JVal) : String :=
  String.intercalate ", " (([ad, ci, zp].filter (fun v => truthy v)).map jsToString)

/-- `formatDate` applied to a raw JS value: falsy gives an em-dash, else
the (abstracted) date parse of its string form, em-dash on an invalid
date. -/
def formatDateJ (parse : String → Option Nat) (fmt : Nat → String) (v : JVal) : String :=
  if truthy v then
    match parse (jsToString v) with
    | some t => fmt t
    | none => "—"
  else "—"

/-- One row of `ProvidersTable` over a raw provider value, cells in
markup order; every cell reads its field with a plain access. -/
def providerRowJE (parse : String → Option Nat) (fmt : Nat → String) (p : JVal) :
    Except String (List String) := do
  let nm ← getProp p "name"
  let ad ← getProp p "address"
  let ci ← getProp p "city"
  let zp ← getProp p "zip"
  let lt ← getProp p "license_type"
  let qr ← getProp p "qris_rating"
  let ls ← getProp p "license_status"
  let seen ← getProp p "last_seen"
  let su ← getProp p "source_url"
  pure [ jsToString nm
       , (if formatAddrJ ad ci zp = "" then "—" else formatAddrJ ad ci zp)
       , dashIfNullish lt
       , dashIfNullish qr
       , dashIfNullish ls
       , formatDateJ parse fmt seen
       , (if truthy su then jsToString su else "—") ]

/-- The rendered view of one chat message in the page body. -/
structure RenderedMessage : Type where
  roleLabel : Role
  content : JVal
  providersView : Option (List (List String))
  clarifyingView : Option (List String)
  costView : Option CostView
  citationsView : Option (List (String × String))

/-- The per-message markup of the page: content, then the providers
table when a non-empty providers array is attached, then the clarifying
questions when `m.data?.clarifying_questions` is a non-empty array, then
`CostResults` when `m.data` is truthy and `m.data.answers` is an array,
then the citations block. -/
def renderMessageE (parse : String → Option Nat) (fmt : Nat → String) (m : Message) :
    Except String RenderedMessage := do
  let pv ← (match m.providers with
    | some ps =>
        if ps.isEmpty then pure none
        else (fun l => some l) <$> ps.mapM (providerRowJE parse fmt)
    | none => pure none)
  let cq := (match m.data with
    | some d =>
        (match jget d "clarifying_questions" with
         | JVal.arr qs => if qs.isEmpty then none else some (qs.map jsToString)
         | _ => none)
    | none => none)
  let cv ← (match m.data with
    | some d =>
        if truthy d then
          match jget d "answers" with
          | JVal.arr _ => (fun v => some v) <$> costResultsE d
          | _ => pure none
        else pure none
    | none => pure none)
  let civ ← (match m.citations with
    | some c => citationsViewE c
    | none => pure none)
  pure { roleLabel := m.role, content := m.content, providersView := pv
       , clarifyingView := cq, costView := cv, citationsView := civ }

theorem dropWhile_head?_false {α : Type} {p : α → Bool} {l : List α} {a : α}
    (h : (l.dropWhile p).head? = some a) : p a = false := by
  have h2 := List.head?_dropWhile_not p l
  rw [h] at h2
  exact h2

theorem dropWhile_eq_self_of_head? {α : Type} {p : α → Bool} {l : List α}
    (h : ∀ a, l.head? = some a → p a = false) : l.dropWhile p = l := by
  cases l with
  | nil => rfl
  | cons a t =>
      have ha := h a rfl
      simp [List.dropWhile_cons, ha]

theorem dropWhile_self {α : Type} (p : α → Bool) (l : List α) :
    (l.dropWhile p).dropWhile p = l.dropWhile p :=
  dropWhile_eq_self_of_head? (fun _ ha => dropWhile_head?_false ha)

theorem getLast?_dropWhile_of_ne_nil {α : Type} (p : α → Bool) (l : List α)
    (h : l.dropWhile p ≠ []) : (l.dropWhile p).getLast? = l.getLast? := by
  conv_rhs => rw [← @List.takeWhile_append_dropWhile _ p l]
  rw [List.getLast?_append]
  obtain ⟨x, hx⟩ := Option.isSome_iff_exists.mp (List.getLast?_isSome.mpr h)
  rw [hx]
  rfl

theorem trimChars_idem (l : List Char) : trimChars (trimChars l) = trimChars l := by
  by_cases hD : ((l.dropWhile Char.isWhitespace).reverse.dropWhile Char.isWhitespace) = []
  · simp [trimChars, hD]
  · have h1 : trimChars l ≠ [] := by simp [trimChars, hD]
    obtain ⟨a, ha⟩ : ∃ a, (trimChars l).head? = some a := by
      cases hc : (trimChars l).head? with
      | none => exact absurd (List.head?_eq_none_iff.mp hc) h1
      | some a => exact ⟨a, rfl⟩
    have hpa : Char.isWhitespace a = false := by
      have e1 : (trimChars l).head?
          = ((l.dropWhile Char.isWhitespace).reverse.dropWhile Char.isWhitespace).getLast? := by
        simp [trimChars]
      have e2 : ((l.dropWhile Char.isWhitespace).reverse.dropWhile Char.isWhitespace).getLast?
          = ((l.dropWhile Char.isWhitespace).reverse).getLast? :=
        getLast?_dropWhile_of_ne_nil _ _ hD
      have e3 : ((l.dropWhile Char.isWhitespace).reverse).getLast?
          = (l.dropWhile Char.isWhitespace).head? := by
        simp
      rw [e1, e2, e3] at ha
      exact dropWhile_head?_false ha
    have hfix : (trimChars l).dropWhile Char.isWhitespace = trimChars l := by
      apply dropWhile_eq_self_of_head?
      intro b hb
      rw [ha] at hb
      have hab := Option.some.inj hb
      rw [← hab]
      exact hpa
    show ((((trimChars l).dropWhile Char.isWhitespace).reverse).dropWhile
      Char.isWhitespace).reverse = trimChars l
    rw [hfix]
    have hrev : (trimChars l).reverse
        = (l.dropWhile Char.isWhitespace).reverse.dropWhile Char.isWhitespace := by
      simp [trimChars]
    rw [hrev, dropWhile_self]
    rfl

theorem jsTrim_idem (s : String) : jsTrim (jsTrim s) = jsTrim s :=
  String.ext (trimChars_idem s.data)

theorem specNormalize_role (r : JVal) : (specNormalize r).role = Role.assistant := by
  unfold specNormalize
  split
  · rfl
  · split <;> rfl

theorem handleReply_role (r : JVal) : (handleReply r).role = Role.assistant := by
  by_cases h1 : r = JVal.null
  · subst h1; rfl
  · by_cases h2 : r = JVal.undef
    · subst h2; rfl
    · unfold handleReply
      rw [normalizeE_ok r h1 h2]
      exact specNormalize_role r

/-- A concrete UI state used by the witnesses. -/
def sampleState : UIState :=
  { input := "hi", stateSel := "PA", intent := "LOOKUP_RULE", county := "", countyFips := ""
  , age := "", setting := "", metric := "median", units := "weekly", messages := [] }

/-- C8: with an empty (after trimming) free text and an intent other than
COST, `send` refuses: no payload is built, no network call is made, and
the message log is unchanged. -/
theorem send_refuses_empty_query (s : UIState) (net : NetResult)
    (hq : jsTrim s.input = "") (hi : s.intent ≠ "COST") :
    sendPhase1 s = none ∧ sendStep s net = s.messages := by
  have he : effectiveQuery s.input s.intent = "" := by
    unfold effectiveQuery
    simp [hq, hi]
  have h1 : sendPhase1 s = none := by
    unfold sendPhase1
    simp [he]
  refine ⟨h1, ?_⟩
  unfold sendStep
  rw [h1]

/-- Witness for C8 at a whitespace-only input with a non-COST intent. -/
theorem send_refuses_empty_query_witness :
    sendPhase1 { sampleState with input := "   " } = none ∧
    sendStep { sampleState with input := "   " } (NetResult.fail "offline")
      = ({ sampleState with input := "   " } : UIState).messages :=
  send_refuses_empty_query { sampleState with input := "   " } (NetResult.fail "offline")
    (by decide) (by decide)

/-- C6: with a non-empty effective query the store is append-only: the
user message is appended by the pre-network phase, exactly one assistant
message is appended after resolution, in that order, all earlier
messages are kept verbatim, and a transport failure appends the
Network-outcome message while the already-appended user message
remains. -/
theorem send_append_only (s : UIState) (net : NetResult)
    (hq : effectiveQuery s.input s.intent ≠ "") :
    sendPhase1 s
        = some (buildPayload (effectiveQuery s.input s.intent) s,
            s.messages ++ [userMessage (effectiveQuery s.input s.intent)]) ∧
    sendStep s net
        = s.messages ++ [userMessage (effectiveQuery s.input s.intent), assistantReply net] ∧
    (userMessage (effectiveQuery s.input s.intent)).role = Role.user ∧
    (assistantReply net).role = Role.assistant ∧
    (∀ e, assistantReply (NetResult.fail e) = netMsg e) := by
  have h1 : sendPhase1 s
      = some (buildPayload (effectiveQuery s.input s.intent) s,
          s.messages ++ [userMessage (effectiveQuery s.input s.intent)]) := by
    unfold sendPhase1
    simp [hq]
  refine ⟨h1, ?_, rfl, ?_, fun e => rfl⟩
  · unfold sendStep
    rw [h1]
    unfold sendPhase2
    simp
  · cases net with
    | ok r => exact handleReply_role r
    | fail e => rfl

/-- Witness for C6 at a concrete state and a transport failure. -/
theorem send_append_only_witness :
    sendPhase1 sampleState
        = some (buildPayload (effectiveQuery sampleState.input sampleState.intent) sampleState,
            sampleState.messages
              ++ [userMessage (effectiveQuery sampleState.input sampleState.intent)]) ∧
    sendStep sampleState (NetResult.fail "offline")
        = sampleState.messages
            ++ [userMessage (effectiveQuery sampleState.input sampleState.intent),
                assistantReply (NetResult.fail "offline")] :=
  ⟨(send_append_only sampleState (NetResult.fail "offline") (by decide)).1,
   (send_append_only sampleState (NetResult.fail "offline") (by decide)).2.1⟩

theorem insertRow_perm (a : JVal) (l : List JVal) :
    (insertRow a l).Perm (a :: l) := by
  induction l with
  | nil => exact List.Perm.refl _
  | cons b bs ih =>
      unfold insertRow
      by_cases h : rankLe (rankJ a) (rankJ b) = true
      · rw [if_pos h]
      · rw [if_neg h]
        exact (List.Perm.cons b ih).trans (List.Perm.swap a b bs)

theorem sortAge_perm (l : List JVal) : (sortAge l).Perm l := by
  induction l with
  | nil => exact List.Perm.refl _
  | cons a t ih =>
      have h1 : sortAge (a :: t) = insertRow a (sortAge t) := rfl
      rw [h1]
      exact (insertRow_perm a (sortAge t)).trans (List.Perm.cons a ih)

/-- C5: appended messages are never edited — every `send` round trip maps
the log to the old log plus a suffix, leaving every earlier entry
verbatim; and the cost projection only reorders the rows it displays (a
permutation), never altering or consuming them. -/
theorem messages_immutable (s : UIState) (net : NetResult) :
    (∃ tail, sendStep s net = s.messages ++ tail) ∧
    (∀ l : List JVal, (sortAge l).Perm l) := by
  constructor
  · by_cases hq : effectiveQuery s.input s.intent = ""
    · refine ⟨[], ?_⟩
      unfold sendStep sendPhase1
      simp [hq]
    · refine ⟨[userMessage (effectiveQuery s.input s.intent), assistantReply net], ?_⟩
      have h1 : sendPhase1 s
          = some (buildPayload (effectiveQuery s.input s.intent) s,
              s.messages ++ [userMessage (effectiveQuery s.input s.intent)]) := by
        unfold sendPhase1
        simp [hq]
      unfold sendStep
      rw [h1]
      unfold sendPhase2
      simp
  · exact sortAge_perm

/-- C4: for a COST request the outbound payload is the base fields
`query`/`state`/`intent` (the region selection is serialized under the
key "state") followed by exactly the structured fields whose values are
non-empty; unset fields are omitted entirely, never sent as empty-string
placeholders. -/
theorem cost_payload_sparse (s : UIState) (q : String) (hi : s.intent = "COST") :
    buildPayload q s = chatBase q s ++ sparseCostFields s ∧
    (∀ kv ∈ sparseCostFields s, kv.2 ≠ "") ∧
    (∀ kv ∈ buildPayload q s, kv ∈ chatBase q s ∨ (kv ∈ rawCostFields s ∧ kv.2 ≠ "")) := by
  have heq : buildPayload q s = chatBase q s ++ sparseCostFields s := by
    have e1 : ∀ (k v : String) (rest : List (String × String)),
        List.filter (fun kv => kv.2 != "") ((k, v) :: rest)
          = (if v ≠ "" then [(k, v)] else [])
            ++ List.filter (fun kv => kv.2 != "") rest := by
      intro k v rest
      by_cases hv : v = "" <;> simp [List.filter_cons, hv, bne_iff_ne]
    unfold buildPayload sparseCostFields rawCostFields
    rw [if_pos hi]
    congr 1
    rw [e1, e1, e1, e1, e1, e1]
    simp [List.filter, List.append_assoc]
  have hmem : ∀ kv ∈ sparseCostFields s, kv.2 ≠ "" := by
    intro kv hkv
    have h2 := (List.mem_filter.mp hkv).2
    simpa using h2
  refine ⟨heq, hmem, ?_⟩
  intro kv hkv
  rw [heq] at hkv
  rcases List.mem_append.mp hkv with h | h
  · exact Or.inl h
  · exact Or.inr ⟨(List.mem_filter.mp h).1, hmem kv h⟩

/-- Witness for C4: a COST state with only some structured fields set. -/
theorem cost_payload_sparse_witness :
    buildPayload "Cost estimate"
        { sampleState with intent := "COST", county := "Allegheny County" }
      = chatBase "Cost estimate"
          { sampleState with intent := "COST", county := "Allegheny County" }
        ++ sparseCostFields
            { sampleState with intent := "COST", county := "Allegheny County" } :=
  (cost_payload_sparse { sampleState with intent := "COST", county := "Allegheny County" }
    "Cost estimate" rfl).1

/-- C10: the effective query is the trimmed input: a whitespace-only
input behaves exactly like the empty input (refused for a non-COST
intent, replaced by "Cost estimate" for the COST intent), and the
appended user message carries the trimmed, non-empty query, which
trimming leaves unchanged. -/
theorem effective_query_trimmed (s : UIState) (net : NetResult) :
    (jsTrim s.input = "" →
      sendPhase1 s = sendPhase1 { s with input := "" } ∧
      sendStep s net = sendStep { s with input := "" } net) ∧
    (jsTrim s.input = "" → s.intent ≠ "COST" → sendPhase1 s = none) ∧
    (jsTrim s.input = "" → s.intent = "COST" →
      effectiveQuery s.input s.intent = "Cost estimate") ∧
    (jsTrim s.input ≠ "" → effectiveQuery s.input s.intent = jsTrim s.input) ∧
    (effectiveQuery s.input s.intent ≠ "" →
      sendPhase1 s = some (buildPayload (effectiveQuery s.input s.intent) s,
        s.messages ++ [userMessage (effectiveQuery s.input s.intent)]) ∧
      (userMessage (effectiveQuery s.input s.intent)).content
        = JVal.str (effectiveQuery s.input s.intent) ∧
      jsTrim (effectiveQuery s.input s.intent) = effectiveQuery s.input s.intent) := by
  have h0 : jsTrim "" = "" := by decide
  refine ⟨?_, ?_, ?_, ?_, ?_⟩
  · intro hq
    have he : effectiveQuery s.input s.intent = effectiveQuery "" s.intent := by
      unfold effectiveQuery
      rw [hq, h0]
    have hu : sendPhase1 s = sendPhase1 { s with input := "" } := by
      unfold sendPhase1
      rw [he]
      rfl
    refine ⟨hu, ?_⟩
    unfold sendStep
    rw [hu]
  · intro hq hi
    unfold sendPhase1
    have he : effectiveQuery s.input s.intent = "" := by
      unfold effectiveQuery
      simp [hq, hi]
    simp [he]
  · intro hq hi
    unfold effectiveQuery
    simp [hq, hi]
  · intro hq
    unfold effectiveQuery
    rw [if_pos hq]
  · intro hne
    refine ⟨?_, rfl, ?_⟩
    · unfold sendPhase1
      simp [hne]
    · unfold effectiveQuery at hne ⊢
      by_cases ht : jsTrim s.input ≠ ""
      · rw [if_pos ht]
        exact jsTrim_idem s.input
      · rw [if_neg ht] at hne ⊢
        by_cases hc : s.intent = "COST"
        · rw [if_pos hc]
          decide
        · rw [if_neg hc] at hne
          exact absurd rfl hne

/-- Witness for C10 at a padded input: the effective query is the
trimmed input. -/
theorem effective_query_trimmed_witness :
    effectiveQuery ({ sampleState with input := "  hello  " } : UIState).input
        ({ sampleState with input := "  hello  " } : UIState).intent
      = jsTrim ({ sampleState with input := "  hello  " } : UIState).input :=
  (effective_query_trimmed { sampleState with input := "  hello  " }
    (NetResult.fail "offline")).2.2.2.1 (by decide)

theorem str_length_pos {x : String} (h : x ≠ "") : 0 < x.length := by
  rcases x with ⟨l⟩
  cases l with
  | nil => exact absurd (by decide) h
  | cons c t => exact Nat.succ_pos _

theorem intercalate_go_length (sep : String) (as : List String) (acc : String) :
    acc.length ≤ (String.intercalate.go acc sep as).length := by
  induction as generalizing acc with
  | nil => exact Nat.le_refl _
  | cons a t ih =>
      have h1 : acc.length ≤ (acc ++ sep ++ a).length := by
        simp [String.length_append]
        omega
      exact Nat.le_trans h1 (ih (acc ++ sep ++ a))

theorem intercalate_ne_empty {x : String} (xs : List String) (hx : x ≠ "") :
    String.intercalate ", " (x :: xs) ≠ "" := by
  intro h0
  have h1 : x.length ≤ (String.intercalate ", " (x :: xs)).length :=
    intercalate_go_length ", " xs x
  rw [h0] at h1
  have h2 : ("" : String).length = 0 := by decide
  have h3 := str_length_pos hx
  omega

theorem mem_addrFields_ne_empty {p : Provider} {y : String} (hy : y ∈ addrFields p) :
    y ≠ "" := by
  unfold addrFields at hy
  obtain ⟨o, _, ho⟩ := List.mem_filterMap.mp hy
  cases o with
  | none => simp at ho
  | some s =>
      by_cases hs : s = ""
      · simp [hs] at ho
      · simp [hs] at ho
        rw [← ho]
        exact hs

/-- C7: the providers table renders one row per provider in input order
(no re-sorting, no de-duplication) and nothing for an empty input; the
display address is the comma-join of the present, non-empty members of
address/city/zip, an em-dash when all three are absent; the display date
is an em-dash when `last_seen` is null or fails to parse as a valid
date. -/
theorem provider_projection (parse : String → Option Nat) (fmt : Nat → String)
    (ps : List Provider) :
    providersTable parse fmt ps
        = (if ps = [] then none else some (ps.map (providerRow parse fmt))) ∧
    (∀ p : Provider, (providerRow parse fmt p).displayAddress
        = (if addrFields p = [] then "—" else String.intercalate ", " (addrFields p))) ∧
    (∀ p : Provider, (providerRow parse fmt p).displayDate
        = (match p.last_seen with
           | none => "—"
           | some iso =>
               match parse iso with
               | none => "—"
               | some t => fmt t)) := by
  refine ⟨?_, ?_, ?_⟩
  · unfold providersTable
    by_cases h : ps = [] <;> simp [h]
  · intro p
    show (if formatAddr p = "" then "—" else formatAddr p) = _
    unfold formatAddr
    by_cases h : addrFields p = []
    · simp [h, String.intercalate]
    · rw [if_neg h]
      obtain ⟨x, t, hxt⟩ := List.exists_cons_of_ne_nil h
      have hx : x ≠ "" := mem_addrFields_ne_empty (by rw [hxt]; exact List.mem_cons_self x t)
      rw [hxt]
      rw [if_neg (intercalate_ne_empty t hx)]
  · intro p
    cases hls : p.last_seen with
    | none => simp [providerRow, formatDate, hls]
    | some iso => cases hp : parse iso <;> simp [providerRow, formatDate, hls, hp]

/-- C1 (amended): for every decoded backend reply other than the JSON
value `null` (whose very first property probe throws, so the catch turns
it into a Network-outcome message), `send` produces exactly one outcome
in the strict priority order Answer > Raw > Error of `specNormalize`;
and a transport failure produces the Network-outcome message, whose
content is prefixed "Network error:" and which never carries citations,
providers or data. -/
theorem normalizer_priority (r : JVal) (h1 : r ≠ JVal.null) (h2 : r ≠ JVal.undef) :
    handleReply r = specNormalize r ∧
    (∀ e, assistantReply (NetResult.fail e) = netMsg e) ∧
    (∀ e, (netMsg e).content = JVal.str ("Network error: " ++ e) ∧
      (netMsg e).citations = none ∧ (netMsg e).providers = none ∧ (netMsg e).data = none) := by
  refine ⟨?_, fun e => rfl, fun e => ⟨rfl, rfl, rfl, rfl⟩⟩
  unfold handleReply
  rw [normalizeE_ok r h1 h2]

/-- Witness for C1 at a raw-only reply. -/
theorem normalizer_priority_witness :
    handleReply (JVal.obj [("raw", JVal.str "plain text")])
      = specNormalize (JVal.obj [("raw", JVal.str "plain text")]) :=
  (normalizer_priority (JVal.obj [("raw", JVal.str "plain text")])
    (by intro h; cases h) (by intro h; cases h)).1

/-- Counterexample to C1 as stated: the decoded JSON reply `null` has no
truthy `answer`, `data` or `raw`, so the claim predicts the Error
outcome ("Unknown error"); the code instead throws at `data.answer` and
the catch appends a Network-outcome message. -/
theorem normalizer_priority_null_counterexample :
    handleReply JVal.null = netMsg "Cannot read properties of null (reading answer)" ∧
    handleReply JVal.null ≠ specNormalize JVal.null := by
  refine ⟨rfl, ?_⟩
  intro h
  have h2 : (JVal.str ("Network error: " ++ "Cannot read properties of null (reading answer)") : JVal)
      = JVal.str ("Sorry—something went wrong.\n\n" ++ "Unknown error") :=
    congrArg Message.content h
  injection h2 with h3
  exact absurd h3 (by decide)

/-- C2: a reply classified as an Answer outcome (truthy `answer` or
truthy `data`) normalises to the message whose content is the `answer`
when truthy, else the synthesized "Estimated childcare prices for
{county}, {state}" sentence when the reply's own `intent` equals "COST",
else "Here you go:"; whose citations are the reply's citations
defaulting to the empty sequence; whose providers are attached exactly
when the reply's `providers` field is an array; and whose data is the
reply's `data` field verbatim. -/
theorem answer_outcome (r : JVal)
    (h : truthy (jget r "answer") = true ∨ truthy (jget r "data") = true) :
    normalizeE r = Except.ok (answerMessage r) ∧
    (answerMessage r).role = Role.assistant ∧
    (answerMessage r).content = (if truthy (jget r "answer") then jget r "answer"
        else if isCOST (jget r "intent") then JVal.str (costSentence r)
        else JVal.str "Here you go:") ∧
    (answerMessage r).citations
        = some (if truthy (jget r "citations") then jget r "citations" else JVal.arr []) ∧
    (answerMessage r).providers
        = (match jget r "providers" with | JVal.arr ps => some ps | _ => none) ∧
    (answerMessage r).data
        = (match jget r "data" with | JVal.null => none | JVal.undef => none | v => some v) := by
  have h1 : r ≠ JVal.null := by
    rintro rfl
    simp [jget, truthy] at h
  have h2 : r ≠ JVal.undef := by
    rintro rfl
    simp [jget, truthy] at h
  have hn := normalizeE_ok r h1 h2
  have hc : (truthy (jget r "answer") || truthy (jget r "data")) = true := by
    rcases h with h | h <;> simp [h]
  have hcase : specNormalize r = answerMessage r := by
    unfold specNormalize
    rw [if_pos hc]
  exact ⟨hn.trans (congrArg Except.ok hcase), rfl, rfl, rfl, rfl, rfl⟩

/-- Witness for C2 at a reply carrying an answer and a providers
array. -/
theorem answer_outcome_witness :
    normalizeE (JVal.obj [("answer", JVal.str "About 300 dollars weekly"),
        ("providers", JVal.arr [])])
      = Except.ok (answerMessage (JVal.obj [("answer", JVal.str "About 300 dollars weekly"),
          ("providers", JVal.arr [])])) :=
  (answer_outcome (JVal.obj [("answer", JVal.str "About 300 dollars weekly"),
    ("providers", JVal.arr [])]) (Or.inl (by decide))).1

/-- The four stable rank blocks of a row list: rank-1 rows first, then
rank-2, rank-3 and rank-9 rows, each block in input order. -/
def rankBlocks (l : List JVal) : List JVal :=
  l.filter (fun v => rankJ v == some 1) ++ l.filter (fun v => rankJ v == some 2)
    ++ l.filter (fun v => rankJ v == some 3) ++ l.filter (fun v => rankJ v == some 9)

theorem rankJ_cases (v : JVal) :
    rankJ v = none ∨ rankJ v = some 1 ∨ rankJ v = some 2 ∨ rankJ v = some 3
      ∨ rankJ v = some 9 := by
  unfold rankJ ageRank
  split_ifs <;> simp

theorem insertRow_front {a : JVal} {ys : List JVal}
    (h : ∀ b ∈ ys, rankLe (rankJ a) (rankJ b) = true) :
    insertRow a ys = a :: ys := by
  cases ys with
  | nil => rfl
  | cons b bs =>
      unfold insertRow
      rw [if_pos (h b (List.mem_cons_self b bs))]

theorem insertRow_skip {a : JVal} {xs ys : List JVal}
    (h : ∀ b ∈ xs, rankLe (rankJ a) (rankJ b) = false) :
    insertRow a (xs ++ ys) = xs ++ insertRow a ys := by
  induction xs with
  | nil => rfl
  | cons x t ih =>
      have hx := h x (List.mem_cons_self x t)
      have e : insertRow a ((x :: t) ++ ys) = x :: insertRow a (t ++ ys) := by
        show insertRow a (x :: (t ++ ys)) = x :: insertRow a (t ++ ys)
        simp only [insertRow]
        rw [if_neg (by simp [hx])]
      rw [e, ih (fun b hb => h b (List.mem_cons_of_mem x hb))]
      rfl

theorem rank_of_mem_filter {n : Nat} {l : List JVal} {b : JVal}
    (h : b ∈ l.filter (fun v => rankJ v == some n)) : rankJ b = some n := by
  have h2 := (List.mem_filter.mp h).2
  simpa using h2

theorem sortAge_eq_rankBlocks (l : List JVal) (hl : ∀ v ∈ l, rankJ v ≠ none) :
    sortAge l = rankBlocks l := by
  induction l with
  | nil => rfl
  | cons a t ih =>
      have hstep : sortAge (a :: t) = insertRow a (sortAge t) := rfl
      rw [hstep, ih (fun v hv => hl v (List.mem_cons_of_mem a hv))]
      unfold rankBlocks
      simp only [List.append_assoc]
      have ha0 := hl a (List.mem_cons_self a t)
      rcases rankJ_cases a with ha | ha | ha | ha | ha
      · exact absurd ha ha0
      · rw [insertRow_front ?front1]
        case front1 =>
          intro b hb
          rw [ha]
          rcases List.mem_append.mp hb with h1 | h1
          · rw [rank_of_mem_filter h1]; decide
          · rcases List.mem_append.mp h1 with h2 | h2
            · rw [rank_of_mem_filter h2]; decide
            · rcases List.mem_append.mp h2 with h3 | h3 <;>
                (rw [rank_of_mem_filter h3]; decide)
        simp [List.filter_cons, ha]
      · rw [insertRow_skip (fun b hb => by rw [rank_of_mem_filter hb, ha]; decide)]
        rw [insertRow_front ?front2]
        case front2 =>
          intro b hb
          rw [ha]
          rcases List.mem_append.mp hb with h1 | h1
          · rw [rank_of_mem_filter h1]; decide
          · rcases List.mem_append.mp h1 with h2 | h2 <;>
              (rw [rank_of_mem_filter h2]; decide)
        simp [List.filter_cons, ha]
      · rw [insertRow_skip (fun b hb => by rw [rank_of_mem_filter hb, ha]; decide)]
        rw [insertRow_skip (fun b hb => by rw [rank_of_mem_filter hb, ha]; decide)]
        rw [insertRow_front ?front3]
        case front3 =>
          intro b hb
          rw [ha]
          rcases List.mem_append.mp hb with h1 | h1 <;>
            (rw [rank_of_mem_filter h1]; decide)
        simp [List.filter_cons, ha]
      · rw [insertRow_skip (fun b hb => by rw [rank_of_mem_filter hb, ha]; decide)]
        rw [insertRow_skip (fun b hb => by rw [rank_of_mem_filter hb, ha]; decide)]
        rw [insertRow_skip (fun b hb => by rw [rank_of_mem_filter hb, ha]; decide)]
        rw [insertRow_front (fun b hb => by rw [rank_of_mem_filter hb, ha]; decide)]
        simp [List.filter_cons, ha]

theorem except_pure {α : Type} (x : α) : (pure x : Except String α) = Except.ok x := rfl

theorem except_bind_ok {α β : Type} (x : α) (f : α → Except String β) :
    (Except.ok x >>= f : Except String β) = f x := rfl

/-- Typed counterpart of one grouping step. -/
def insertGroupT (gs : List (String × List CostAnswer)) (k : String) (a : CostAnswer) :
    List (String × List CostAnswer) :=
  match gs with
  | [] => [(k, [a])]
  | g :: rest => if g.1 = k then (g.1, g.2 ++ [a]) :: rest else g :: insertGroupT rest k a

/-- Typed counterpart of the grouping loop. -/
def groupTyped (answers : List CostAnswer) : List (String × List CostAnswer) :=
  answers.foldl (fun gs a => insertGroupT gs a.setting a) []

/-- Encoding of a typed group list. -/
def encG (gs : List (String × List CostAnswer)) : List (String × List JVal) :=
  gs.map (fun g => (g.1, g.2.map encodeAnswer))

theorem groupKey_enc (a : CostAnswer) :
    getProp (encodeAnswer a) "setting" = Except.ok (JVal.str a.setting) := rfl

theorem rankJ_enc (a : CostAnswer) : rankJ (encodeAnswer a) = rankOf a := rfl

theorem insertGroup_enc (gs : List (String × List CostAnswer)) (k : String) (a : CostAnswer) :
    insertGroup (encG gs) k (encodeAnswer a) = encG (insertGroupT gs k a) := by
  induction gs with
  | nil => rfl
  | cons g rest ih =>
      show insertGroup ((g.1, g.2.map encodeAnswer) :: encG rest) k (encodeAnswer a) = _
      simp only [insertGroup, insertGroupT]
      by_cases h : g.1 = k
      · rw [if_pos h, if_pos h]
        simp [encG, List.map_append]
      · rw [if_neg h, if_neg h]
        rw [ih]
        simp [encG]

theorem costGroupsE_enc (l : List CostAnswer) (hset : ∀ a ∈ l, a.setting ∉ protoKeys) :
    costGroupsE (l.map encodeAnswer) = Except.ok (encG (groupTyped l)) := by
  suffices h : ∀ l2 : List CostAnswer, (∀ a ∈ l2, a.setting ∉ protoKeys) →
      ∀ gs : List (String × List CostAnswer),
      List.foldlM (fun gs a => do
          let st ← getProp a "setting"
          if jsToString st ∈ protoKeys then
            Except.error "groups[key].push is not a function"
          else
            pure (insertGroup gs (jsToString st) a)) (encG gs) (l2.map encodeAnswer)
        = Except.ok (encG (List.foldl (fun gs a => insertGroupT gs a.setting a) gs l2)) by
    exact h l hset []
  intro l2
  induction l2 with
  | nil => intro _ gs; rfl
  | cons a t ih =>
      intro h2 gs
      have ha : a.setting ∉ protoKeys := h2 a (List.mem_cons_self a t)
      simp only [List.map_cons, List.foldlM_cons, groupKey_enc, except_bind_ok,
        jsToString, ha, if_false, ite_false, pure_bind, insertGroup_enc]
      rw [ih (fun b hb => h2 b (List.mem_cons_of_mem a hb)) (insertGroupT gs a.setting a)]
      rfl

theorem settingsFirstOccur_append (p : List CostAnswer) (a : CostAnswer) :
    settingsFirstOccur (p ++ [a])
      = (if a.setting ∈ settingsFirstOccur p then settingsFirstOccur p
         else settingsFirstOccur p ++ [a.setting]) := by
  unfold settingsFirstOccur
  rw [List.foldl_append]
  rfl

theorem mem_settingsFirstOccur {st : String} {l : List CostAnswer} :
    st ∈ settingsFirstOccur l ↔ ∃ a ∈ l, a.setting = st := by
  suffices h : ∀ acc, st ∈ List.foldl
      (fun acc a => if a.setting ∈ acc then acc else acc ++ [a.setting]) acc l
      ↔ st ∈ acc ∨ ∃ a ∈ l, a.setting = st by
    have h0 := h []
    simpa [settingsFirstOccur] using h0
  induction l with
  | nil => intro acc; simp
  | cons a t ih =>
      intro acc
      rw [List.foldl_cons, ih]
      by_cases hmem : a.setting ∈ acc
      · rw [if_pos hmem]
        constructor
        · rintro (h1 | ⟨x, hx, he⟩)
          · exact Or.inl h1
          · exact Or.inr ⟨x, List.mem_cons_of_mem a hx, he⟩
        · rintro (h1 | ⟨x, hx, he⟩)
          · exact Or.inl h1
          · rcases List.mem_cons.mp hx with rfl | hx2
            · exact Or.inl (he ▸ hmem)
            · exact Or.inr ⟨x, hx2, he⟩
      · rw [if_neg hmem]
        constructor
        · rintro (h1 | ⟨x, hx, he⟩)
          · rcases List.mem_append.mp h1 with h2 | h2
            · exact Or.inl h2
            · have h3 : st = a.setting := by simpa using h2
              exact Or.inr ⟨a, List.mem_cons_self a t, h3.symm⟩
          · exact Or.inr ⟨x, List.mem_cons_of_mem a hx, he⟩
        · rintro (h1 | ⟨x, hx, he⟩)
          · exact Or.inl (List.mem_append.mpr (Or.inl h1))
          · rcases List.mem_cons.mp hx with rfl | hx2
            · exact Or.inl (List.mem_append.mpr (Or.inr (by simp [he])))
            · exact Or.inr ⟨x, hx2, he⟩

theorem nodup_settingsFirstOccur (l : List CostAnswer) : (settingsFirstOccur l).Nodup := by
  suffices h : ∀ acc : List String, acc.Nodup →
      (List.foldl (fun acc a => if a.setting ∈ acc then acc else acc ++ [a.setting]) acc l).Nodup by
    exact h [] List.nodup_nil
  induction l with
  | nil => intro acc hacc; simpa using hacc
  | cons a t ih =>
      intro acc hacc
      rw [List.foldl_cons]
      apply ih
      by_cases hmem : a.setting ∈ acc
      · rw [if_pos hmem]; exact hacc
      · rw [if_neg hmem]
        simp [List.nodup_append, hacc, hmem]

theorem insertGroupT_map (S : List String) (hS : S.Nodup)
    (f : String → List CostAnswer) (k : String) (a : CostAnswer) (hk : k ∈ S) :
    insertGroupT (S.map (fun st => (st, f st))) k a
      = S.map (fun st => (st, if st = k then f st ++ [a] else f st)) := by
  induction S with
  | nil => cases hk
  | cons s S ih =>
      rw [List.map_cons, List.map_cons]
      by_cases h : s = k
      · subst h
        simp only [insertGroupT, if_true]
        congr 1
        apply List.map_congr_left
        intro st hst
        have hne : st ≠ s := fun he => (List.nodup_cons.mp hS).1 (he ▸ hst)
        rw [if_neg hne]
      · simp only [insertGroupT]
        rw [if_neg h, if_neg h]
        have hk2 : k ∈ S := by
          rcases List.mem_cons.mp hk with h1 | h1
          · exact absurd h1.symm h
          · exact h1
        rw [ih (List.nodup_cons.mp hS).2 hk2]

theorem insertGroupT_map_fresh (S : List String) (f : String → List CostAnswer)
    (k : String) (a : CostAnswer) (hk : k ∉ S) :
    insertGroupT (S.map (fun st => (st, f st))) k a
      = S.map (fun st => (st, f st)) ++ [(k, [a])] := by
  induction S with
  | nil => rfl
  | cons s S ih =>
      rw [List.map_cons]
      have hs : ¬(s = k) := fun h => hk (by rw [← h]; exact List.mem_cons_self s S)
      simp only [insertGroupT]
      rw [if_neg hs]
      rw [ih (fun hm => hk (List.mem_cons_of_mem s hm))]
      rfl

theorem groupStep (p : List CostAnswer) (a : CostAnswer) :
    insertGroupT ((settingsFirstOccur p).map
        (fun st => (st, p.filter (fun x => x.setting == st)))) a.setting a
      = (settingsFirstOccur (p ++ [a])).map
          (fun st => (st, (p ++ [a]).filter (fun x => x.setting == st))) := by
  rw [settingsFirstOccur_append]
  by_cases hmem : a.setting ∈ settingsFirstOccur p
  · rw [if_pos hmem]
    rw [insertGroupT_map _ (nodup_settingsFirstOccur p) _ _ _ hmem]
    apply List.map_congr_left
    intro st hst
    rw [List.filter_append]
    by_cases he : st = a.setting
    · subst he
      simp [List.filter_cons]
    · rw [if_neg he]
      have h2 : (List.filter (fun x => x.setting == st) [a]) = [] := by
        simp [List.filter_cons, beq_iff_eq]
        exact fun hc => he hc.symm
      rw [h2, List.append_nil]
  · rw [if_neg hmem]
    rw [insertGroupT_map_fresh _ _ _ _ hmem]
    rw [List.map_append]
    congr 1
    · apply List.map_congr_left
      intro st hst
      have hne : st ≠ a.setting := fun he => hmem (he ▸ hst)
      rw [List.filter_append]
      have h2 : (List.filter (fun x => x.setting == st) [a]) = [] := by
        simp [List.filter_cons, beq_iff_eq]
        exact fun hc => hne hc.symm
      rw [h2, List.append_nil]
    · have hp : p.filter (fun x => x.setting == a.setting) = [] := by
        rw [List.filter_eq_nil_iff]
        intro x hx
        simp only [beq_iff_eq]
        intro he
        exact hmem (mem_settingsFirstOccur.mpr ⟨x, hx, he⟩)
      simp [List.filter_append, List.filter_cons, hp]

theorem groupTyped_eq (l : List CostAnswer) :
    groupTyped l = (settingsFirstOccur l).map
      (fun st => (st, l.filter (fun a => a.setting == st))) := by
  suffices h : ∀ p : List CostAnswer,
      List.foldl (fun gs a => insertGroupT gs a.setting a)
        ((settingsFirstOccur p).map (fun st => (st, p.filter (fun x => x.setting == st)))) l
      = (settingsFirstOccur (p ++ l)).map
          (fun st => (st, (p ++ l).filter (fun x => x.setting == st))) by
    have h0 := h []
    simpa [groupTyped, settingsFirstOccur] using h0
  induction l with
  | nil => intro p; simp
  | cons a t ih =>
      intro p
      rw [List.foldl_cons, groupStep p a]
      have h2 := ih (p ++ [a])
      simpa [List.append_assoc] using h2

theorem mapM_age_enc (l : List CostAnswer) :
    (l.map encodeAnswer).mapM (fun v => getProp v "age_group")
      = Except.ok (l.map (fun a => JVal.str a.age_group)) := by
  induction l with
  | nil => rfl
  | cons a t ih =>
      simp only [List.map_cons, List.mapM_cons]
      rw [show getProp (encodeAnswer a) "age_group" = Except.ok (JVal.str a.age_group) from rfl]
      simp only [except_bind_ok]
      rw [ih]
      rfl

theorem sortRowsE_enc (l : List CostAnswer) :
    sortRowsE (l.map encodeAnswer) = Except.ok (sortAge (l.map encodeAnswer)) := by
  unfold sortRowsE
  rw [mapM_age_enc]
  rfl

theorem tables_mapM (gs : List (String × List CostAnswer)) :
    (encG gs).mapM (fun g => do
        let s ← sortRowsE g.2
        pure (g.1, s))
      = Except.ok (gs.map (fun g => (g.1, sortAge (g.2.map encodeAnswer)))) := by
  induction gs with
  | nil => rfl
  | cons g t ih =>
      show ((g.1, g.2.map encodeAnswer) :: encG t).mapM _ = _
      simp only [List.mapM_cons, sortRowsE_enc, except_bind_ok, ih]
      rfl

theorem ageRank_of_not_proto {g : String} (h : g ∉ protoKeys) : ageRank g ≠ none := by
  unfold ageRank
  split_ifs <;> simp_all

theorem sorted_group (st : String) (l : List CostAnswer)
    (h : ∀ a ∈ l, a.age_group ∉ protoKeys) :
    sortAge ((l.filter (fun a => a.setting == st)).map encodeAnswer)
      = (rowsForSetting st l).map encodeAnswer := by
  rw [sortAge_eq_rankBlocks _ ?hr]
  case hr =>
    intro v hv
    obtain ⟨a, ha, rfl⟩ := List.mem_map.mp hv
    rw [rankJ_enc]
    exact ageRank_of_not_proto (h a (List.mem_filter.mp ha).1)
  unfold rankBlocks rowsForSetting
  rw [List.filter_map, List.filter_map, List.filter_map, List.filter_map]
  simp only [Function.comp_def, rankJ_enc]
  rw [List.filter_filter, List.filter_filter, List.filter_filter, List.filter_filter]
  simp [List.map_append]

theorem insertIdx_keyed (ks : List String) (f : String → List JVal) (k : String) :
    insertIdx (k, f k) (ks.map (fun st => (st, f st)))
      = (insertIdxKey k ks).map (fun st => (st, f st)) := by
  induction ks with
  | nil => rfl
  | cons h t ih =>
      simp only [List.map_cons, insertIdx, insertIdxKey]
      by_cases hc : keyNum k ≤ keyNum h
      · rw [if_pos hc, if_pos hc]
        rfl
      · rw [if_neg hc, if_neg hc, ih]
        rfl

theorem sortIdx_keyed (ks : List String) (f : String → List JVal) :
    sortIdx (ks.map (fun st => (st, f st))) = (sortIdxKeys ks).map (fun st => (st, f st)) := by
  induction ks with
  | nil => rfl
  | cons k t ih =>
      show insertIdx (k, f k) (sortIdx (t.map (fun st => (st, f st)))) = _
      rw [ih, insertIdx_keyed]
      rfl

theorem entriesOrder_keyed (S : List String) (f : String → List JVal) :
    entriesOrder (S.map (fun st => (st, f st)))
      = (jsKeyOrder S).map (fun st => (st, f st)) := by
  unfold entriesOrder jsKeyOrder
  rw [List.filter_map, List.filter_map, List.map_append]
  simp only [Function.comp_def]
  congr 1
  exact sortIdx_keyed (S.filter isArrayIndex) f

theorem jsKeyOrder_id (S : List String) (h : ∀ k ∈ S, isArrayIndex k = false) :
    jsKeyOrder S = S := by
  unfold jsKeyOrder
  have h1 : S.filter isArrayIndex = [] := by
    rw [List.filter_eq_nil_iff]
    intro k hk
    simp [h k hk]
  have h2 : S.filter (fun k => !isArrayIndex k) = S := by
    rw [List.filter_eq_self]
    intro k hk
    simp [h k hk]
  rw [h1, h2]
  rfl

/-- C3 (amended): on any typed CostData answer list whose settings and
age groups do not collide with a member of `Object.prototype`, the cost
projection yields one sub-table per distinct setting, in JS plain-object
enumeration order — array-index-like settings first in ascending numeric
order, then the remaining settings in first-occurrence order; when no
setting is an array-index string this is exactly first-occurrence
order.  Within each sub-table the rows follow the fixed age priority
infant < toddler < preschool < any other age group, ties kept in
original order.  (A setting colliding with an `Object.prototype` member
makes the grouping loop throw; an age group colliding with one makes the
sort comparator return NaN, leaving the order implementation-defined.) -/
theorem cost_projection (answers : List CostAnswer)
    (hset : ∀ a ∈ answers, a.setting ∉ protoKeys)
    (hage : ∀ a ∈ answers, a.age_group ∉ protoKeys) :
    costTablesE (answers.map encodeAnswer) = Except.ok (specTablesJS answers) ∧
    ((∀ a ∈ answers, isArrayIndex a.setting = false) →
      costTablesE (answers.map encodeAnswer) = Except.ok (specTables answers)) := by
  have hmain : costTablesE (answers.map encodeAnswer)
      = Except.ok (specTablesJS answers) := by
    unfold costTablesE
    rw [costGroupsE_enc answers hset]
    simp only [except_bind_ok]
    rw [groupTyped_eq]
    have hencG : encG ((settingsFirstOccur answers).map
        (fun st => (st, answers.filter (fun a => a.setting == st))))
        = (settingsFirstOccur answers).map
            (fun st => (st, (answers.filter (fun a => a.setting == st)).map encodeAnswer)) := by
      unfold encG
      rw [List.map_map]
      rfl
    rw [hencG, entriesOrder_keyed]
    have henc2 : (jsKeyOrder (settingsFirstOccur answers)).map
        (fun st => (st, (answers.filter (fun a => a.setting == st)).map encodeAnswer))
        = encG ((jsKeyOrder (settingsFirstOccur answers)).map
            (fun st => (st, answers.filter (fun a => a.setting == st)))) := by
      unfold encG
      rw [List.map_map]
      rfl
    rw [henc2, tables_mapM]
    congr 1
    unfold specTablesJS
    rw [List.map_map]
    apply List.map_congr_left
    intro st hst
    show (st, sortAge ((answers.filter (fun a => a.setting == st)).map encodeAnswer))
      = (st, (rowsForSetting st answers).map encodeAnswer)
    rw [sorted_group st answers hage]
  refine ⟨hmain, ?_⟩
  intro hidx
  rw [hmain]
  have hko : jsKeyOrder (settingsFirstOccur answers) = settingsFirstOccur answers := by
    apply jsKeyOrder_id
    intro k hk
    obtain ⟨a, haa, he⟩ := mem_settingsFirstOccur.mp hk
    rw [← he]
    exact hidx a haa
  unfold specTablesJS specTables
  rw [hko]

/-- Witness for C3 at the concrete example of the specification:
answers preschool/center, infant/center, toddler/family. -/
theorem cost_projection_witness :
    costTablesE (([⟨"preschool", "center", ⟨none, none⟩, ⟨none, none⟩⟩,
        ⟨"infant", "center", ⟨none, none⟩, ⟨none, none⟩⟩,
        ⟨"toddler", "family", ⟨none, none⟩, ⟨none, none⟩⟩] : List CostAnswer).map encodeAnswer)
      = Except.ok (specTablesJS [⟨"preschool", "center", ⟨none, none⟩, ⟨none, none⟩⟩,
          ⟨"infant", "center", ⟨none, none⟩, ⟨none, none⟩⟩,
          ⟨"toddler", "family", ⟨none, none⟩, ⟨none, none⟩⟩]) :=
  (cost_projection [⟨"preschool", "center", ⟨none, none⟩, ⟨none, none⟩⟩,
      ⟨"infant", "center", ⟨none, none⟩, ⟨none, none⟩⟩,
      ⟨"toddler", "family", ⟨none, none⟩, ⟨none, none⟩⟩]
    (by decide) (by decide)).1

/-- Counterexample to C3 as stated: the sub-table order is not always
first-occurrence order, because a JS plain object enumerates array-index
keys first in ascending numeric order.  For settings "2" then "1" the
program renders the tables keyed ["1", "2"] while the claim demands
["2", "1"].  Moreover a setting equal to an `Object.prototype` key makes
the grouping loop throw, and an age group equal to one gives the sort
comparator no rank (a NaN result), so such rows are not placed in the
trailing block. -/
theorem cost_projection_counterexample :
    (costTablesE (([⟨"infant", "2", ⟨none, none⟩, ⟨none, none⟩⟩,
        ⟨"infant", "1", ⟨none, none⟩, ⟨none, none⟩⟩] : List CostAnswer).map
          encodeAnswer)).map (fun ts => ts.map Prod.fst) = Except.ok ["1", "2"] ∧
    (specTables [⟨"infant", "2", ⟨none, none⟩, ⟨none, none⟩⟩,
        ⟨"infant", "1", ⟨none, none⟩, ⟨none, none⟩⟩]).map Prod.fst = ["2", "1"] ∧
    costTablesE (([⟨"infant", "2", ⟨none, none⟩, ⟨none, none⟩⟩,
        ⟨"infant", "1", ⟨none, none⟩, ⟨none, none⟩⟩] : List CostAnswer).map encodeAnswer)
      ≠ Except.ok (specTables [⟨"infant", "2", ⟨none, none⟩, ⟨none, none⟩⟩,
          ⟨"infant", "1", ⟨none, none⟩, ⟨none, none⟩⟩]) ∧
    costGroupsE [encodeAnswer ⟨"infant", "constructor", ⟨none, none⟩, ⟨none, none⟩⟩]
      = Except.error "groups[key].push is not a function" ∧
    rankJ (encodeAnswer ⟨"constructor", "center", ⟨none, none⟩, ⟨none, none⟩⟩) = none := by
  refine ⟨rfl, rfl, ?_, rfl, rfl⟩
  intro h
  have h2 := congrArg (Except.map (fun ts : List (String × List JVal) => ts.map Prod.fst)) h
  have h3 : (Except.ok ["1", "2"] : Except String (List String))
      = Except.ok ["2", "1"] := h2
  injection h3 with h4
  exact absurd h4 (by decide)

/-- A backend reply whose `data.answers` element lacks the
`weekly`/`monthly` objects — the malformed-payload case named by the
specification. -/
def c9reply : JVal :=
  JVal.obj [("data", JVal.obj [("answers",
    JVal.arr [JVal.obj [("age_group", JVal.str "infant"), ("setting", JVal.str "center")]])])]

/-- C9 fails on the code: normalisation of `c9reply` completes without
throwing, but rendering the resulting assistant message throws an
uncaught TypeError in the cost projection, because the row markup reads
`a.weekly.median` with no optional chaining. -/
theorem cost_render_throws :
    (normalizeE c9reply).isOk = true ∧
    renderMessageE (fun _ => none) (fun _ => "") (handleReply c9reply)
      = Except.error "Cannot read properties of undefined (reading median)" :=
  ⟨rfl, rfl⟩
